import Mathlib

/-!
Djinni support library: ownership handles, keep-alive lists and the exception bridge.

A shallow embedding of `support-lib/djinni_common.hpp` (`SharedPtr`, `WeakPtr`,
`makeShared`, `static_pointer_cast`), `support-lib/cpp/djinni_function_policies.hpp`
(return value policies, `keepAlive`) and the exception bridge of
`support-lib/wasm/djinni_wasm.cpp`.

`std::shared_ptr` is modelled explicitly: a pointer is a stored address together with
an optional control block, a control block carries a strong count, a weak count, the
owned address and its deleter.  The heap is passed explicitly through every operation.
-/

namespace Djinni

/-! ## The `std::shared_ptr` substrate -/

/-- Raw addresses; `0` is `nullptr`, address `a + 1` is slot `a` of the object table.
Addresses and control block identities are natural numbers; the names below are used
for the parameters of the operations. -/
abbrev Addr := Nat

/-- Identity of a control block: its index in the table of control blocks. -/
abbrev CbId := Nat

/-- Identity of a C++ type `T`; it distinguishes `SharedPtr<T>::Manager` from
`SharedPtr<U>::Manager`. -/
abbrev TypeId := Nat

/-- A `std::shared_ptr` (also the type-erased `std::shared_ptr<void>`): the stored
pointer returned by `get()` and the control block it shares, if any. -/
structure StdPtr where
  addr : Nat
  cb : Option Nat
  deriving DecidableEq, Repr

/-- The default-constructed `std::shared_ptr`. -/
def StdPtr.null : StdPtr := ⟨0, none⟩

/-- Deleters a control block can own.  `destroy` is the deleter of `std::make_shared`
and of `std::shared_ptr<T>{raw}` (it releases the allocation), `noop` is the lambda
`[](void*) {}` of `DisconnectReference`, `manager ty patients` is an object of type
`SharedPtr<ty>::Manager`. -/
inductive Deleter where
  | destroy
  | noop
  | manager (ty : TypeId) (patients : List StdPtr)
  deriving DecidableEq, Repr

/-- A control block of `std::shared_ptr`. -/
structure Block where
  strong : Nat
  weak : Nat
  owned : Nat
  deleter : Deleter
  deriving DecidableEq, Repr

/-- An allocation: the value of the object and how many times it has been released. -/
structure Obj where
  value : Int
  frees : Nat
  deriving DecidableEq, Repr

/-- The native heap: allocations and control blocks. -/
structure Heap where
  objs : List Obj
  blocks : List Block
  deriving DecidableEq, Repr

/-- The patient list held by a control block: `Manager::patients`, empty for the
other deleters. -/
def Block.patients (b : Block) : List StdPtr :=
  match b.deleter with
  | .manager _ ps => ps
  | _ => []

/-- The strong count of control block `c` (`0` when there is no such block). -/
def Heap.strongOf (h : Heap) (c : CbId) : Nat :=
  match h.blocks[c]? with
  | some b => b.strong
  | none => 0

/-- The weak count of control block `c`. -/
def Heap.weakOf (h : Heap) (c : CbId) : Nat :=
  match h.blocks[c]? with
  | some b => b.weak
  | none => 0

/-- The function `std::shared_ptr::use_count`. -/
def Heap.useCount (h : Heap) (p : StdPtr) : Nat :=
  match p.cb with
  | none => 0
  | some c => h.strongOf c

/-- The patient list stored in control block `c`. -/
def Heap.patientsOf (h : Heap) (c : CbId) : List StdPtr :=
  match h.blocks[c]? with
  | some b => b.patients
  | none => []

/-- How many times the allocation at address `a` has been released. -/
def Heap.freesOf (h : Heap) (a : Addr) : Nat :=
  match a with
  | 0 => 0
  | i + 1 =>
    match h.objs[i]? with
    | some o => o.frees
    | none => 0

/-- The value stored at address `a`, if `a` is an allocation. -/
def Heap.valueOf (h : Heap) (a : Addr) : Option Int :=
  match a with
  | 0 => none
  | i + 1 =>
    match h.objs[i]? with
    | some o => some o.value
    | none => none

/-- Overwrite control block `c`. -/
def Heap.setBlock (h : Heap) (c : CbId) (b : Block) : Heap :=
  { h with blocks := h.blocks.set c b }

/-- Allocate a new control block; its identity is returned. -/
def Heap.addBlock (h : Heap) (b : Block) : Nat × Heap :=
  (h.blocks.length, { h with blocks := h.blocks ++ [b] })

/-- Allocate a new object holding `v`; its address is returned. -/
def Heap.alloc (h : Heap) (v : Int) : Nat × Heap :=
  (h.objs.length + 1, { h with objs := h.objs ++ [⟨v, 0⟩] })

/-- Assignment through a raw pointer: `*a = v`. -/
def Heap.write (h : Heap) (a : Addr) (v : Int) : Heap :=
  match a with
  | 0 => h
  | i + 1 =>
    match h.objs[i]? with
    | some o => { h with objs := h.objs.set i { o with value := v } }
    | none => h

/-- Release of the allocation at `a` (`delete a`; deleting `nullptr` does nothing). -/
def Heap.dealloc (h : Heap) (a : Addr) : Heap :=
  match a with
  | 0 => h
  | i + 1 =>
    match h.objs[i]? with
    | some o => { h with objs := h.objs.set i { o with frees := o.frees + 1 } }
    | none => h

/-- Copy construction of a `std::shared_ptr`: one more strong reference. -/
def Heap.incStrong (h : Heap) (p : StdPtr) : Heap :=
  match p.cb with
  | none => h
  | some c =>
    match h.blocks[c]? with
    | some b => h.setBlock c { b with strong := b.strong + 1 }
    | none => h

/-- Construction of a `std::weak_ptr` from a `std::shared_ptr`: one more weak
reference. -/
def Heap.incWeak (h : Heap) (p : StdPtr) : Heap :=
  match p.cb with
  | none => h
  | some c =>
    match h.blocks[c]? with
    | some b => h.setBlock c { b with weak := b.weak + 1 }
    | none => h

/-- The pointer `p` is a well-formed `std::shared_ptr` of heap `h`: it owns no control
block, or the block it owns has a nonzero strong count (which `p` contributes to). -/
def Heap.Valid (h : Heap) (p : StdPtr) : Prop :=
  p.cb = none ∨ 0 < h.useCount p

/-- Destruction of the `std::shared_ptr`s in the work list, one after the other.
Dropping the last strong reference of a block runs its deleter; `Manager::operator()`
clears the patient list, which destroys every patient in turn, so the patients are put
in front of the work list (the cascade is synchronous and depth first).  A pointer
without control block is skipped; a pointer to a block that does not exist or whose
count is already zero is not a well-formed `std::shared_ptr` and is skipped too.  The
fuel bounds the number of pointers destroyed. -/
def drain : Nat → List StdPtr → Heap → Option Heap
  | _, [], h => some h
  | 0, _ :: _, _ => none
  | fuel + 1, p :: work, h =>
    match p.cb with
    | none => drain fuel work h
    | some c =>
      match h.blocks[c]? with
      | none => drain fuel work h
      | some b =>
        if b.strong = 0 then drain fuel work h
        else if b.strong = 1 then
          match b.deleter with
          | .destroy =>
            drain fuel work ((h.setBlock c { b with strong := 0 }).dealloc b.owned)
          | .noop => drain fuel work (h.setBlock c { b with strong := 0 })
          | .manager ty ps =>
            drain fuel (ps ++ work)
              (h.setBlock c { b with strong := 0, deleter := .manager ty [] })
        else drain fuel work (h.setBlock c { b with strong := b.strong - 1 })

/-- Number of patient entries stored in the whole heap. -/
def Heap.totalPatients (h : Heap) : Nat :=
  (h.blocks.map (fun b => b.patients.length)).sum

/-- Destruction of one `std::shared_ptr`, with the cascade it may trigger.  The fuel
given is enough for every heap (`drain_release_eq_some`). -/
def Heap.release (h : Heap) (p : StdPtr) : Heap :=
  (drain (h.totalPatients + 1) [p] h).getD h

/-- The call `std::make_shared<T>(v)`: a fresh allocation holding `v` and a fresh
control block owning it. -/
def stdMakeShared (v : Int) (h : Heap) : StdPtr × Heap :=
  let (a, h1) := h.alloc v
  let (c, h2) := h1.addBlock ⟨1, 0, a, .destroy⟩
  (⟨a, some c⟩, h2)

/-- The constructor `std::shared_ptr<T>{raw}`: a fresh control block with the default
deleter, owning `raw`. -/
def stdFromRaw (raw : Addr) (h : Heap) : StdPtr × Heap :=
  let (c, h1) := h.addBlock ⟨1, 0, raw, .destroy⟩
  (⟨raw, some c⟩, h1)

/-- The constructor `std::shared_ptr<T>{raw, [](void*) {}}`: a fresh control block whose
deleter does nothing. -/
def stdFromRawNoop (raw : Addr) (h : Heap) : StdPtr × Heap :=
  let (c, h1) := h.addBlock ⟨1, 0, raw, .noop⟩
  (⟨raw, some c⟩, h1)

/-- The call `std::get_deleter<SharedPtr<ty>::Manager>(p)`: the control block of `p`
and its patient list when the deleter has exactly that type, nothing otherwise. -/
def getManager (ty : TypeId) (p : StdPtr) (h : Heap) : Option (Nat × List StdPtr) :=
  match p.cb with
  | none => none
  | some c =>
    match h.blocks[c]? with
    | none => none
    | some b =>
      match b.deleter with
      | .manager ty2 ps => if ty2 = ty then some (c, ps) else none
      | _ => none

/-! ## `djinni::SharedPtr` and `djinni::WeakPtr` -/

/-- A `djinni::SharedPtr<ty>`: its only member is `ptr_`. -/
structure SharedPtr where
  ty : TypeId
  ptr : StdPtr
  deriving DecidableEq, Repr

/-- A `djinni::WeakPtr<ty>`: its only member is the `std::weak_ptr` `ptr_`. -/
structure WeakPtr where
  ty : TypeId
  ptr : StdPtr
  deriving DecidableEq, Repr

/-- The constructors `SharedPtr()` and `SharedPtr(nullptr)`. -/
def SharedPtr.empty (ty : TypeId) : SharedPtr := ⟨ty, StdPtr.null⟩

/-- The accessor `SharedPtr::get`. -/
def SharedPtr.get (p : SharedPtr) : Nat := p.ptr.addr

/-- The conversion `SharedPtr::operator bool`. -/
def SharedPtr.toBool (p : SharedPtr) : Bool := p.ptr.addr != 0

/-- The constructor `SharedPtr<ty>(std::shared_ptr<ty> r)`; it consumes `r`.  A null
`r` gives the empty handle (and `r` is destroyed), an `r` whose deleter is a
`SharedPtr<ty>::Manager` is adopted, any other `r` is put in the patient list of a
fresh `Manager` control block. -/
def SharedPtr.ofStd (ty : TypeId) (r : StdPtr) (h : Heap) : SharedPtr × Heap :=
  if r.addr = 0 then (SharedPtr.empty ty, h.release r)
  else
    match getManager ty r h with
    | some _ => (⟨ty, r⟩, h)
    | none =>
      let (c, h1) := h.addBlock ⟨1, 0, r.addr, .manager ty [r]⟩
      (⟨ty, ⟨r.addr, some c⟩⟩, h1)

/-- The function `makeShared<ty>(v)`. -/
def makeShared (ty : TypeId) (v : Int) (h : Heap) : SharedPtr × Heap :=
  let (r, h1) := stdMakeShared v h
  SharedPtr.ofStd ty r h1

/-- The variadic constructor applied to a raw pointer: `SharedPtr<ty>(raw)`. -/
def SharedPtr.ofRaw (ty : TypeId) (raw : Addr) (h : Heap) : SharedPtr × Heap :=
  let (r, h1) := stdFromRaw raw h
  SharedPtr.ofStd ty r h1

/-- The variadic constructor applied to a raw pointer and the deleter `[](void*) {}`:
`SharedPtr<ty>(raw, [](void*) {})`. -/
def SharedPtr.ofRawNoop (ty : TypeId) (raw : Addr) (h : Heap) : SharedPtr × Heap :=
  let (r, h1) := stdFromRawNoop raw h
  SharedPtr.ofStd ty r h1

/-- The converting constructor `SharedPtr<ty>(SharedPtr<Y> r)`: `ptr_` is moved, the
stored pointer is converted to `conv r.get()`. -/
def SharedPtr.convert (ty : TypeId) (conv : Addr → Addr) (r : SharedPtr) : SharedPtr :=
  ⟨ty, ⟨conv r.ptr.addr, r.ptr.cb⟩⟩

/-- The aliasing constructor `SharedPtr<ty>(const SharedPtr<Y>& r, element_type* ptr)`. -/
def SharedPtr.alias (ty : TypeId) (r : SharedPtr) (ptr : Addr) (h : Heap) :
    SharedPtr × Heap :=
  (⟨ty, ⟨ptr, r.ptr.cb⟩⟩, h.incStrong r.ptr)

/-- The function `static_pointer_cast<ty>(r)`; `cast` is the address arithmetic of
`static_cast`. -/
def static_pointer_cast (ty : TypeId) (cast : Addr → Addr) (r : SharedPtr) (h : Heap) :
    SharedPtr × Heap :=
  SharedPtr.alias ty r (cast r.get) h

/-- The conversion `SharedPtr::operator std::shared_ptr<T>`: a copy of `ptr_`. -/
def SharedPtr.toStd (p : SharedPtr) (h : Heap) : StdPtr × Heap :=
  (p.ptr, h.incStrong p.ptr)

/-- Destruction of a `SharedPtr`. -/
def SharedPtr.destroy (p : SharedPtr) (h : Heap) : Heap :=
  h.release p.ptr

/-- The message printed before `std::abort()` in `SharedPtr::keepAlive`. -/
def managerNotFound : String :=
  "Internal error: SharedPtr did not find the expected Manager"

/-- The member function `SharedPtr::keepAlive(std::shared_ptr<void> patient)`.  The
parameter is taken by value: it is either moved into the patient list or destroyed
when the function returns.  `std::find` compares with `operator==` of
`std::shared_ptr`, that is, it compares the stored addresses.  An `error` result is
the `std::abort()` branch. -/
def SharedPtr.keepAlive (nurse : SharedPtr) (patient : StdPtr) (h : Heap) :
    Except String Heap :=
  if nurse.ptr.addr = 0 then .ok (h.release patient)
  else
    match getManager nurse.ty nurse.ptr h with
    | none => .error managerNotFound
    | some (c, ps) =>
      if ps.any (fun q => q.addr == patient.addr) then .ok (h.release patient)
      else
        match h.blocks[c]? with
        | some b =>
          .ok (h.setBlock c { b with deleter := .manager nurse.ty (ps ++ [patient]) })
        | none => .ok h

/-- The free function `keepAlive<nurse_idx, patient_idx>(args)`: the patient handle is
copied into the by-value parameter of `SharedPtr::keepAlive`. -/
def keepAlive (nurse patient : SharedPtr) (h : Heap) : Except String Heap :=
  let (q, h1) := patient.toStd h
  nurse.keepAlive q h1

/-- The constructor `WeakPtr(const SharedPtr<T>& r)`. -/
def WeakPtr.ofShared (r : SharedPtr) (h : Heap) : WeakPtr × Heap :=
  (⟨r.ty, r.ptr⟩, h.incWeak r.ptr)

/-- The member function `WeakPtr::expired`. -/
def WeakPtr.expired (w : WeakPtr) (h : Heap) : Bool :=
  h.useCount w.ptr == 0

/-- The member function `WeakPtr::lock`, through `SharedPtr(const WeakPtr<T>&)` and
`std::weak_ptr::lock`. -/
def WeakPtr.lock (w : WeakPtr) (h : Heap) : SharedPtr × Heap :=
  if w.expired h then (SharedPtr.empty w.ty, h)
  else (⟨w.ty, w.ptr⟩, h.incStrong w.ptr)

/-! ## Return value policies (`djinni_function_policies.hpp`) -/

/-- The argument of a `…Reference::apply` call: a raw pointer or a `std::shared_ptr`. -/
inductive Pointer where
  | raw (a : Addr)
  | shared (p : StdPtr)
  deriving DecidableEq, Repr

/-- The address a pointer designates (`&*pointer`). -/
def Pointer.addr : Pointer → Nat
  | .raw a => a
  | .shared p => p.addr

/-- Destruction of a pointer object: nothing for a raw pointer, a release for a
`std::shared_ptr`. -/
def Pointer.destroy : Pointer → Heap → Heap
  | .raw _, h => h
  | .shared p, h => h.release p

/-- What `function()` evaluates to in `internal::valuePolicy`: an lvalue reference to
the object at an address, a raw pointer prvalue, or a `std::shared_ptr` prvalue (a
temporary that owns one strong reference). -/
inductive FnResult where
  | lvalueRef (a : Addr)
  | rawPointer (a : Addr)
  | stdShared (p : StdPtr)
  deriving DecidableEq, Repr

/-- A policy class: `apply` gives the handle, what is left of its argument (a moved-from
`std::shared_ptr` is null), and the heap; `none` is undefined behaviour. -/
abbrev ReferencePolicy := TypeId → Pointer → Heap → Option (SharedPtr × Pointer × Heap)

/-- Reading `*a`: defined for an allocation that has not been released. -/
def Heap.load (h : Heap) (a : Addr) : Option Int :=
  if h.freesOf a = 0 then h.valueOf a else none

/-- The policy `TakeReference::apply`: `ReturnType(std::move(pointer))`. -/
def TakeReference.apply : ReferencePolicy := fun ty pointer h =>
  match pointer with
  | .raw a =>
    let (s, h1) := SharedPtr.ofRaw ty a h
    some (s, .raw a, h1)
  | .shared p =>
    let (s, h1) := SharedPtr.ofStd ty p h
    some (s, .shared StdPtr.null, h1)

/-- The policy `CopyReference::apply`: `makeShared<PointeeType<ReturnType>>(*pointer)`. -/
def CopyReference.apply : ReferencePolicy := fun ty pointer h =>
  match h.load pointer.addr with
  | none => none
  | some v =>
    let (s, h1) := makeShared ty v h
    some (s, pointer, h1)

/-- The policy `DisconnectReference::apply`:
`SharedPtr<PointeeType<ReturnType>>(&*pointer, [](void*) {})`. -/
def DisconnectReference.apply : ReferencePolicy := fun ty pointer h =>
  let (s, h1) := SharedPtr.ofRawNoop ty pointer.addr h
  some (s, pointer, h1)

/-- The function `internal::valuePolicy<ReturnType, PointerPolicy, LvaluePolicy>` on the
result of `function()`, for the lvalue-reference branch and the generalized-pointer
branch.  The temporary bound to `result` is destroyed when the function returns. -/
def valuePolicy (ty : TypeId) (pointerPolicy lvaluePolicy : ReferencePolicy)
    (result : FnResult) (h : Heap) : Option (SharedPtr × Heap) :=
  match result with
  | .lvalueRef a =>
    match lvaluePolicy ty (.raw a) h with
    | some (s, _, h1) => some (s, h1)
    | none => none
  | .rawPointer a =>
    match pointerPolicy ty (.raw a) h with
    | some (s, rest, h1) => some (s, rest.destroy h1)
    | none => none
  | .stdShared p =>
    match pointerPolicy ty (.shared p) h with
    | some (s, rest, h1) => some (s, rest.destroy h1)
    | none => none

/-- The policy `return_value_policy::Copy`. -/
def return_value_policy.Copy (ty : TypeId) (result : FnResult) (h : Heap) :
    Option (SharedPtr × Heap) :=
  valuePolicy ty CopyReference.apply CopyReference.apply result h

/-- The policy `return_value_policy::Disconnect`. -/
def return_value_policy.Disconnect (ty : TypeId) (result : FnResult) (h : Heap) :
    Option (SharedPtr × Heap) :=
  valuePolicy ty DisconnectReference.apply DisconnectReference.apply result h

/-- The policy `return_value_policy::Automatic`. -/
def return_value_policy.Automatic (ty : TypeId) (result : FnResult) (h : Heap) :
    Option (SharedPtr × Heap) :=
  valuePolicy ty TakeReference.apply CopyReference.apply result h

/-- The policy `return_value_policy::Take`.  Its `static_assert` accepts only a function
that returns a generalized pointer, so a function returning a reference to an object is
rejected (`none`). -/
def return_value_policy.Take (ty : TypeId) (result : FnResult) (h : Heap) :
    Option (SharedPtr × Heap) :=
  match result with
  | .lvalueRef _ => none
  | .rawPointer a => valuePolicy ty TakeReference.apply TakeReference.apply (.rawPointer a) h
  | .stdShared p => valuePolicy ty TakeReference.apply TakeReference.apply (.stdShared p) h

/-- A host (JS) value as far as the bridge looks at it: its identity, whether it is an
instance of `Error`, its message, and its `_djinni_cpp_exception_ptr` property
(`none` when the property is undefined). -/
structure HostValue where
  id : Nat
  isError : Bool
  message : String
  cppExceptionPtr : Option Int
  deriving DecidableEq, Repr

/-- Modelled from the spec: the class `JsException` is declared in `djinni_wasm.hpp`,
which is not among the sources.  It is the native exception that carries a host value:
`JsException(v)` stores `v` and `cause()` returns it.  Any other `std::exception` is
given by its dynamic type and its `what()` text. -/
inductive NativeException where
  | js (cause : HostValue)
  | other (type : String) (what : String)
  deriving DecidableEq, Repr

/-- The text of `what()` as `djinni_native_exception_to_js` reads it. -/
def NativeException.what : NativeException → String
  | .js cause => cause.message
  | .other _ w => w

/-- The state of the bridge: the function-local `static std::exception_ptr exptr` of
`djinni_native_exception_to_js` (`none` is the null `exception_ptr`), the address of
that variable, and the identity given to the next host object created. -/
structure Bridge where
  exptr : Option NativeException
  exptrAddr : Int
  nextId : Nat
  deriving DecidableEq, Repr

/-- How a call of `JsProxyBase::checkError` ends. -/
inductive CheckOutcome where
  | returned
  | raised (e : NativeException)
  | undefined
  deriving DecidableEq, Repr

/-- The function `djinni_native_exception_to_js(e)`; `current` is what
`std::current_exception()` returns at the call. -/
def djinni_native_exception_to_js (current : Option NativeException)
    (e : NativeException) (st : Bridge) : HostValue × Bridge :=
  match e with
  | .js cause => (cause, st)
  | .other _ w =>
    (⟨st.nextId, true, "C++: " ++ w, some st.exptrAddr⟩,
      { st with exptr := current, nextId := st.nextId + 1 })

/-- The function `JsProxyBase::checkError(v)`. -/
def JsProxyBase.checkError (v : HostValue) (st : Bridge) : CheckOutcome :=
  if v.isError then
    match v.cppExceptionPtr with
    | some a =>
      if a = st.exptrAddr then
        match st.exptr with
        | some e => .raised e
        | none => .undefined
      else .undefined
    | none => .raised (.js v)
  else .returned

/-- What the host function called by `Module.callJsProxyMethod` does. -/
inductive HostCall where
  | returns (v : HostValue)
  | throws (v : HostValue)
  deriving DecidableEq, Repr

/-- The function `Module.callJsProxyMethod`: a thrown value is caught and returned in
place of the result. -/
def Module.callJsProxyMethod : HostCall → HostValue
  | .returns v => v
  | .throws e => e

/-! ## Programs over handles -/

/-- The contribution of one pointer to the references of control block `c`. -/
def ptrRef (p : StdPtr) (c : Nat) : Nat :=
  if p.cb = some c then 1 else 0

theorem set_same {α : Type} : ∀ (l : List α) (i : Nat) (a : α), l[i]? = some a → l.set i a = l
  | [], _, _, hl => by simp at hl
  | x :: l, 0, a, hl => by
    simp at hl
    simp [List.set, hl]
  | x :: l, i + 1, a, hl => by
    simp at hl
    simp [List.set, set_same l i a hl]

theorem setBlock_setBlock (h : Heap) (c : Nat) (b1 b2 : Block) :
    (h.setBlock c b1).setBlock c b2 = h.setBlock c b2 := by
  simp [Heap.setBlock, List.set_set]

theorem setBlock_same (h : Heap) (c : Nat) (b : Block) (hb : h.blocks[c]? = some b) :
    h.setBlock c b = h := by
  cases h with
  | mk objs blocks =>
    simp only [Heap.setBlock] at hb ⊢
    rw [set_same blocks c b hb]

theorem blocks_setBlock_self (h : Heap) (c : Nat) (b b2 : Block)
    (hb : h.blocks[c]? = some b) : (h.setBlock c b2).blocks[c]? = some b2 := by
  have hlt : c < h.blocks.length := by
    rcases List.getElem?_eq_some.mp hb with ⟨hl, _⟩
    exact hl
  simp [Heap.setBlock, List.getElem?_set_self hlt]

theorem blocks_setBlock_ne (h : Heap) (c c2 : Nat) (b2 : Block) (hne : c ≠ c2) :
    (h.setBlock c b2).blocks[c2]? = h.blocks[c2]? := by
  simp [Heap.setBlock, List.getElem?_set_ne hne]

/-- A block with a nonzero strong count exists. -/
theorem strongOf_pos (h : Heap) (c : Nat) (hp : 0 < h.strongOf c) :
    ∃ b, h.blocks[c]? = some b ∧ 0 < b.strong := by
  unfold Heap.strongOf at hp
  cases hb : h.blocks[c]? with
  | none => simp [hb] at hp
  | some b => exact ⟨b, rfl, by simpa [hb] using hp⟩

/-- Copying a well-formed `std::shared_ptr` and destroying the copy restores the heap. -/
theorem release_incStrong (h : Heap) (p : StdPtr) (hv : h.Valid p) :
    (h.incStrong p).release p = h := by
  unfold Heap.incStrong
  cases hc : p.cb with
  | none =>
    simp only [Heap.release, drain, hc]
    cases h.totalPatients <;> simp [drain]
  | some c =>
    rcases hv with hv | hv
    · simp [hc] at hv
    · simp only [Heap.useCount, hc] at hv
      obtain ⟨b, hb, hpos⟩ := strongOf_pos h c hv
      simp only [hb, Heap.release, drain, hc]
      rw [blocks_setBlock_self h c b _ hb]
      have h0 : ¬ (b.strong + 1 = 0) := by omega
      have h1 : ¬ (b.strong + 1 = 1) := by omega
      simp only [h0, h1, if_false, setBlock_setBlock, Nat.add_sub_cancel]
      rw [setBlock_same h c _ hb]
      cases (h.setBlock c { b with strong := b.strong + 1 }).totalPatients <;> simp [drain]

theorem strongOf_setBlock_self (h : Heap) (c : Nat) (b b2 : Block)
    (hb : h.blocks[c]? = some b) : (h.setBlock c b2).strongOf c = b2.strong := by
  simp [Heap.strongOf, blocks_setBlock_self h c b b2 hb]

theorem strongOf_setBlock_ne (h : Heap) (c c2 : Nat) (b2 : Block) (hne : c ≠ c2) :
    (h.setBlock c b2).strongOf c2 = h.strongOf c2 := by
  simp [Heap.strongOf, blocks_setBlock_ne h c c2 b2 hne]

theorem strongOf_incWeak (h : Heap) (p : StdPtr) (c : Nat) :
    (h.incWeak p).strongOf c = h.strongOf c := by
  unfold Heap.incWeak
  cases hc : p.cb with
  | none => rfl
  | some c1 =>
    simp only
    cases hb : h.blocks[c1]? with
    | none => rfl
    | some b =>
      simp only
      by_cases hcc : c1 = c
      · subst hcc
        rw [strongOf_setBlock_self h c1 b _ hb]
        simp [Heap.strongOf, hb]
      · exact strongOf_setBlock_ne h c1 c _ hcc

theorem strongOf_incStrong_ne (h : Heap) (p : StdPtr) (c : Nat) (hne : p.cb ≠ some c) :
    (h.incStrong p).strongOf c = h.strongOf c := by
  unfold Heap.incStrong
  cases hc : p.cb with
  | none => rfl
  | some c1 =>
    simp only
    cases hb : h.blocks[c1]? with
    | none => rfl
    | some b =>
      simp only
      have hcc : c1 ≠ c := by
        intro e
        exact hne (by rw [hc, e])
      exact strongOf_setBlock_ne h c1 c _ hcc

theorem useCount_incStrong (h : Heap) (p : StdPtr) (hp : h.useCount p ≠ 0) :
    (h.incStrong p).useCount p = h.useCount p + 1 := by
  unfold Heap.useCount at hp ⊢
  unfold Heap.incStrong
  cases hc : p.cb with
  | none => simp [hc] at hp
  | some c =>
    simp only [hc] at hp ⊢
    obtain ⟨b, hb, _⟩ := strongOf_pos h c (Nat.pos_of_ne_zero hp)
    simp only [hb]
    rw [strongOf_setBlock_self h c b _ hb]
    simp [Heap.strongOf, hb]

/-- Overwriting a block by one with the same strong count keeps every strong count. -/
theorem strongOf_setBlock_same (h : Heap) (c : Nat) (b b2 : Block)
    (hb : h.blocks[c]? = some b) (hs : b2.strong = b.strong) (c2 : Nat) :
    (h.setBlock c b2).strongOf c2 = h.strongOf c2 := by
  by_cases hcc : c = c2
  · subst hcc
    rw [strongOf_setBlock_self h c b b2 hb, hs]
    simp [Heap.strongOf, hb]
  · exact strongOf_setBlock_ne h c c2 b2 hcc

theorem patientsOf_setBlock_self (h : Heap) (c : Nat) (b b2 : Block)
    (hb : h.blocks[c]? = some b) : (h.setBlock c b2).patientsOf c = b2.patients := by
  simp [Heap.patientsOf, blocks_setBlock_self h c b b2 hb]

theorem patientsOf_setBlock_ne (h : Heap) (c c2 : Nat) (b2 : Block) (hne : c ≠ c2) :
    (h.setBlock c b2).patientsOf c2 = h.patientsOf c2 := by
  simp [Heap.patientsOf, blocks_setBlock_ne h c c2 b2 hne]

/-- Overwriting a block by one with the same deleter keeps every patient list. -/
theorem patientsOf_setBlock_same (h : Heap) (c : Nat) (b b2 : Block)
    (hb : h.blocks[c]? = some b) (hs : b2.deleter = b.deleter) (c2 : Nat) :
    (h.setBlock c b2).patientsOf c2 = h.patientsOf c2 := by
  by_cases hcc : c = c2
  · subst hcc
    rw [patientsOf_setBlock_self h c b b2 hb]
    simp [Heap.patientsOf, hb, Block.patients, hs]
  · exact patientsOf_setBlock_ne h c c2 b2 hcc

theorem patientsOf_incStrong (h : Heap) (p : StdPtr) (c : Nat) :
    (h.incStrong p).patientsOf c = h.patientsOf c := by
  unfold Heap.incStrong
  cases hc : p.cb with
  | none => rfl
  | some c1 =>
    simp only
    cases hb : h.blocks[c1]? with
    | none => rfl
    | some b =>
      exact patientsOf_setBlock_same h c1 b { b with strong := b.strong + 1 } hb rfl c

theorem objs_incStrong (h : Heap) (p : StdPtr) : (h.incStrong p).objs = h.objs := by
  unfold Heap.incStrong
  cases p.cb with
  | none => rfl
  | some c1 =>
    simp only
    cases h.blocks[c1]? <;> rfl

theorem strongOf_incStrong_le (h : Heap) (p : StdPtr) (c : Nat) :
    (h.incStrong p).strongOf c ≤ h.strongOf c + 1 := by
  unfold Heap.incStrong
  cases hc : p.cb with
  | none => simp
  | some c1 =>
    simp only
    cases hb : h.blocks[c1]? with
    | none => simp
    | some b =>
      simp only
      by_cases hcc : c1 = c
      · subst hcc
        rw [strongOf_setBlock_self h c1 b _ hb]
        simp [Heap.strongOf, hb]
      · rw [strongOf_setBlock_ne h c1 c _ hcc]
        omega

/-- What `getManager` finds is the block of the pointer, and its deleter is a manager of
the type asked for. -/
theorem getManager_some (ty : TypeId) (r : StdPtr) (h : Heap) (c : Nat) (ps : List StdPtr)
    (hg : getManager ty r h = some (c, ps)) :
    r.cb = some c ∧ ∃ b, h.blocks[c]? = some b ∧ b.deleter = .manager ty ps := by
  unfold getManager at hg
  cases hc : r.cb with
  | none => simp [hc] at hg
  | some c1 =>
    simp only [hc] at hg
    cases hb : h.blocks[c1]? with
    | none => simp [hb] at hg
    | some b =>
      simp only [hb] at hg
      cases hd : b.deleter with
      | destroy => simp [hd] at hg
      | noop => simp [hd] at hg
      | manager ty2 ps2 =>
        simp only [hd] at hg
        by_cases ht : ty2 = ty
        · simp only [ht, if_true, Option.some.injEq, Prod.mk.injEq] at hg
          obtain ⟨h1, h2⟩ := hg
          subst h1 h2 ht
          exact ⟨rfl, b, hb, hd⟩
        · simp [ht] at hg

theorem getManager_of_block (ty : TypeId) (r : StdPtr) (h : Heap) (c : Nat) (b : Block)
    (ps : List StdPtr) (hc : r.cb = some c) (hb : h.blocks[c]? = some b)
    (hd : b.deleter = .manager ty ps) : getManager ty r h = some (c, ps) := by
  simp [getManager, hc, hb, hd]

theorem getManager_incStrong (ty : TypeId) (r p : StdPtr) (h : Heap) :
    getManager ty r (h.incStrong p) = getManager ty r h := by
  unfold Heap.incStrong
  cases hc : p.cb with
  | none => rfl
  | some c1 =>
    simp only
    cases hb : h.blocks[c1]? with
    | none => rfl
    | some b =>
      simp only
      unfold getManager
      cases hr : r.cb with
      | none => rfl
      | some c =>
        simp only
        by_cases hcc : c1 = c
        · subst hcc
          rw [blocks_setBlock_self h c1 b _ hb, hb]
        · rw [blocks_setBlock_ne h c1 c _ hcc]

theorem valid_of_strongOf (h h2 : Heap) (p : StdPtr) (hv : h.Valid p)
    (hs : ∀ c, h.strongOf c ≤ h2.strongOf c) : h2.Valid p := by
  rcases hv with hv | hv
  · exact Or.inl hv
  · right
    unfold Heap.useCount at hv ⊢
    cases hc : p.cb with
    | none => simp [hc] at hv
    | some c =>
      simp only [hc] at hv ⊢
      exact Nat.lt_of_lt_of_le hv (hs c)

theorem strongOf_le_incStrong (h : Heap) (p : StdPtr) (c : Nat) :
    h.strongOf c ≤ (h.incStrong p).strongOf c := by
  unfold Heap.incStrong
  cases hc : p.cb with
  | none => simp
  | some c1 =>
    simp only
    cases hb : h.blocks[c1]? with
    | none => simp
    | some b =>
      simp only
      by_cases hcc : c1 = c
      · subst hcc
        rw [strongOf_setBlock_self h c1 b _ hb]
        simp [Heap.strongOf, hb]
      · rw [strongOf_setBlock_ne h c1 c _ hcc]

/-- The handle and the heap `makeShared` produces: a fresh allocation, its control
block, and the `Manager` block that holds the `std::shared_ptr` as first patient. -/
theorem makeShared_eq (ty : TypeId) (v : Int) (h : Heap) :
    makeShared ty v h =
      (⟨ty, ⟨h.objs.length + 1, some (h.blocks.length + 1)⟩⟩,
        ⟨h.objs ++ [⟨v, 0⟩],
          h.blocks ++ [⟨1, 0, h.objs.length + 1, .destroy⟩,
            ⟨1, 0, h.objs.length + 1,
              .manager ty [⟨h.objs.length + 1, some h.blocks.length⟩]⟩]⟩) := by
  simp [makeShared, stdMakeShared, Heap.alloc, Heap.addBlock, SharedPtr.ofStd, getManager]

theorem load_append (objs : List Obj) (blocks blocks2 : List Block) (o : Obj) (a : Nat)
    (v : Int) (hl : Heap.load ⟨objs, blocks⟩ a = some v) :
    Heap.load ⟨objs ++ [o], blocks2⟩ a = some v := by
  unfold Heap.load Heap.freesOf Heap.valueOf at hl ⊢
  cases a with
  | zero => simp at hl
  | succ i =>
    simp only at hl ⊢
    cases ho : objs[i]? with
    | none => simp [ho] at hl
    | some x =>
      have hlt : i < objs.length := (List.getElem?_eq_some.mp ho).1
      rw [List.getElem?_append_left hlt, ho]
      simpa [ho] using hl

theorem load_lt (h : Heap) (a : Nat) (v : Int) (hl : h.load a = some v) :
    a ≠ 0 ∧ a ≤ h.objs.length := by
  unfold Heap.load Heap.freesOf Heap.valueOf at hl
  cases a with
  | zero => simp at hl
  | succ i =>
    simp only at hl
    cases ho : h.objs[i]? with
    | none => simp [ho] at hl
    | some x =>
      have hlt : i < h.objs.length := (List.getElem?_eq_some.mp ho).1
      exact ⟨Nat.succ_ne_zero i, Nat.succ_le_of_lt hlt⟩

theorem load_write_self (h : Heap) (a : Nat) (v v2 : Int) (hl : h.load a = some v) :
    (h.write a v2).load a = some v2 := by
  unfold Heap.load Heap.freesOf Heap.valueOf Heap.write at *
  cases a with
  | zero => simp at hl
  | succ i =>
    simp only at hl ⊢
    cases ho : h.objs[i]? with
    | none => simp [ho] at hl
    | some x =>
      have hlt : i < h.objs.length := (List.getElem?_eq_some.mp ho).1
      simp only [ho] at hl ⊢
      simp only [List.getElem?_set_self hlt]
      split at hl
      · simp_all
      · simp at hl

theorem load_write_ne (h : Heap) (a a2 : Nat) (v2 : Int) (hne : a ≠ a2) :
    (h.write a v2).load a2 = h.load a2 := by
  unfold Heap.load Heap.freesOf Heap.valueOf Heap.write
  cases a with
  | zero => rfl
  | succ i =>
    simp only
    cases ho : h.objs[i]? with
    | none => rfl
    | some x =>
      cases a2 with
      | zero => rfl
      | succ j =>
        have hij : i ≠ j := fun e => hne (by rw [e])
        simp only [List.getElem?_set_ne hij]

/-! ## C1: a patient whose address is already in the patient list -/

/-- C1 (the code at the failing input): `p` owns a fresh object, `d` is the
`Disconnect` handle of a function returning a reference to that object, so `d` is
non-empty, has the address of `p`, and its patient list already holds an entry with
that address.  `keepAlive(d, p)` returns normally and leaves the heap as it was: the
patient is not recorded.  Destroying `p` then releases the object although the nurse
`d` still has strong count one. -/
theorem keepAlive_same_address_patient_released :
    ∃ p h1 d h2,
      makeShared 1 42 ⟨[], []⟩ = (p, h1) ∧
      return_value_policy.Disconnect 1 (.lvalueRef p.get) h1 = some (d, h2) ∧
      d.toBool = true ∧ d.get = p.get ∧
      d.ptr.cb = some 3 ∧ (h2.patientsOf 3).map StdPtr.addr = [p.get] ∧
      keepAlive d p h2 = .ok h2 ∧
      (p.destroy h2).useCount d.ptr = 1 ∧
      h2.freesOf p.get = 0 ∧
      (p.destroy h2).freesOf p.get = 1 := by
  refine ⟨_, _, _, _, rfl, rfl, ?_⟩
  exact ⟨by decide, by decide, by decide, by decide, rfl, by decide, by decide, by decide⟩

/-! ## Reference counting lemmas -/

/-- C3 (the code at the failing input): `e1` and then `e2` are converted, each inside
its own handler.  Both host errors carry the same back-reference (the address of the
one static slot), so handing the host error of `e1` back to `JsProxyBase.checkError` re-raises
`e2`; without the second conversion it re-raises `e1`. -/
theorem checkError_after_second_conversion :
    ∃ v1 st1 v2 st2,
      djinni_native_exception_to_js (some (.other "std::runtime_error" "first"))
        (.other "std::runtime_error" "first") ⟨none, 64, 0⟩ = (v1, st1) ∧
      djinni_native_exception_to_js (some (.other "std::logic_error" "second"))
        (.other "std::logic_error" "second") st1 = (v2, st2) ∧
      v1.cppExceptionPtr = v2.cppExceptionPtr ∧
      JsProxyBase.checkError v1 st1 = .raised (.other "std::runtime_error" "first") ∧
      JsProxyBase.checkError v1 st2 = .raised (.other "std::logic_error" "second") := by
  refine ⟨_, _, _, _, rfl, rfl, ?_⟩
  exact ⟨by decide, by decide, by decide⟩

/-! ## C4: `keepAlive` on an empty nurse -/

/-- C4 (counterexample): `keepAlive` on the empty nurse, with a live patient made by
`makeShared`, returns normally and leaves the heap unchanged; no error is reported. -/
theorem keepAlive_empty_nurse_accepted :
    keepAlive (SharedPtr.empty 1) (makeShared 2 7 ⟨[], []⟩).1 (makeShared 2 7 ⟨[], []⟩).2
      = .ok (makeShared 2 7 ⟨[], []⟩).2 := by
  rfl

/-- C4 (amended): for every patient, the member function `keepAlive` called on an empty
nurse returns normally and only destroys its by-value parameter; through the free
function `keepAlive`, with a well-formed patient handle, the call returns normally and
the heap is left exactly as it was, so no patient is recorded anywhere. -/
theorem keepAlive_empty_nurse_noop (nurse patient : SharedPtr) (q : StdPtr) (h : Heap)
    (hn : nurse.toBool = false) :
    nurse.keepAlive q h = .ok (h.release q) ∧
    (h.Valid patient.ptr → keepAlive nurse patient h = .ok h) := by
  have h0 : nurse.ptr.addr = 0 := by
    simpa [SharedPtr.toBool] using hn
  refine ⟨by simp [SharedPtr.keepAlive, h0], fun hv => ?_⟩
  simp only [keepAlive, SharedPtr.toStd, SharedPtr.keepAlive, h0, if_true]
  rw [release_incStrong h patient.ptr hv]

/-- C4 (amended) at a concrete input: the empty nurse and a `makeShared` patient. -/
theorem keepAlive_empty_nurse_noop_witness :
    (SharedPtr.empty 1).toBool = false ∧
    (SharedPtr.empty 1).keepAlive StdPtr.null (makeShared 2 7 ⟨[], []⟩).2
      = .ok ((makeShared 2 7 ⟨[], []⟩).2.release StdPtr.null) ∧
    keepAlive (SharedPtr.empty 1) (makeShared 2 7 ⟨[], []⟩).1 (makeShared 2 7 ⟨[], []⟩).2
      = .ok (makeShared 2 7 ⟨[], []⟩).2 :=
  ⟨by decide,
    (keepAlive_empty_nurse_noop (SharedPtr.empty 1) (makeShared 2 7 ⟨[], []⟩).1 StdPtr.null
      (makeShared 2 7 ⟨[], []⟩).2 (by decide)).1,
    (keepAlive_empty_nurse_noop (SharedPtr.empty 1) (makeShared 2 7 ⟨[], []⟩).1 StdPtr.null
      (makeShared 2 7 ⟨[], []⟩).2 (by decide)).2 (Or.inr (by decide))⟩

/-! ## C5: `keepAlive` twice -/

/-- C5: for a non-empty nurse and a well-formed patient handle, when `keepAlive(nurse,
patient)` has returned, a second `keepAlive(nurse, patient)` returns as well and
leaves the heap exactly as the first call left it (same patient lists, same counts).
The first call leaves the nurse's patient list as it was or appends the patient once,
leaves every other patient list and every allocation as it was, raises the strong
count of the patient's control block by at most one and changes no other count. -/
theorem keepAlive_idempotent (nurse patient : SharedPtr) (h h1 : Heap)
    (hn : nurse.toBool = true) (hv : h.Valid patient.ptr)
    (hk : keepAlive nurse patient h = .ok h1) :
    keepAlive nurse patient h1 = .ok h1 ∧
    ∃ c ps, getManager nurse.ty nurse.ptr h = some (c, ps) ∧
      (h1.patientsOf c = ps ∨ h1.patientsOf c = ps ++ [patient.ptr]) ∧
      (∀ c2, c2 ≠ c → h1.patientsOf c2 = h.patientsOf c2) ∧
      (∀ c2, h1.strongOf c2 ≤ h.strongOf c2 + 1) ∧
      (∀ c2, patient.ptr.cb ≠ some c2 → h1.strongOf c2 = h.strongOf c2) ∧
      h1.objs = h.objs := by
  have hn0 : ¬ nurse.ptr.addr = 0 := by
    simpa [SharedPtr.toBool] using hn
  have hk2 := hk
  simp only [keepAlive, SharedPtr.toStd, SharedPtr.keepAlive, hn0, if_false,
    getManager_incStrong] at hk2
  cases hg : getManager nurse.ty nurse.ptr h with
  | none => simp [hg] at hk2
  | some cps =>
    obtain ⟨c, ps⟩ := cps
    obtain ⟨hcb, b, hb, hd⟩ := getManager_some _ _ _ _ _ hg
    simp only [hg] at hk2
    by_cases hany : (ps.any fun q => q.addr == patient.ptr.addr) = true
    · simp only [hany, if_true, release_incStrong h patient.ptr hv, Except.ok.injEq] at hk2
      subst hk2
      refine ⟨hk, c, ps, rfl, Or.inl ?_, fun _ _ => rfl, fun _ => by omega, fun _ _ => rfl, rfl⟩
      simp [Heap.patientsOf, hb, Block.patients, hd]
    · simp only [hany] at hk2
      -- the block of the nurse after the copy of the patient
      have hg2 := hg
      rw [← getManager_incStrong nurse.ty nurse.ptr patient.ptr h] at hg2
      obtain ⟨_, b2, hb2, hd2⟩ := getManager_some _ _ _ _ _ hg2
      simp only [hb2, Bool.false_eq_true, if_false, Except.ok.injEq] at hk2
      subst hk2
      have hstrong : ∀ c2, (Heap.setBlock (h.incStrong patient.ptr) c
          { b2 with deleter := .manager nurse.ty (ps ++ [patient.ptr]) }).strongOf c2
            = (h.incStrong patient.ptr).strongOf c2 :=
        fun c2 => strongOf_setBlock_same _ c b2
          { b2 with deleter := .manager nurse.ty (ps ++ [patient.ptr]) } hb2 rfl c2
      refine ⟨?_, c, ps, rfl, Or.inr ?_, fun c2 hc2 => ?_, fun c2 => ?_, fun c2 hc2 => ?_, ?_⟩
      · -- the second call finds the patient in the list
        have hv1 : (Heap.setBlock (h.incStrong patient.ptr) c
            { b2 with deleter := .manager nurse.ty (ps ++ [patient.ptr]) }).Valid patient.ptr :=
          valid_of_strongOf h _ patient.ptr hv (fun c2 => by
            rw [hstrong c2]
            exact strongOf_le_incStrong h patient.ptr c2)
        have hg3 : getManager nurse.ty nurse.ptr (Heap.setBlock (h.incStrong patient.ptr) c
            { b2 with deleter := .manager nurse.ty (ps ++ [patient.ptr]) })
              = some (c, ps ++ [patient.ptr]) :=
          getManager_of_block _ _ _ c _ _ hcb (blocks_setBlock_self _ c b2 _ hb2) rfl
        simp only [keepAlive, SharedPtr.toStd, SharedPtr.keepAlive, hn0, if_false,
          getManager_incStrong, hg3]
        have hany2 : ((ps ++ [patient.ptr]).any fun q => q.addr == patient.ptr.addr) = true := by
          simp
        simp only [hany2, if_true]
        rw [release_incStrong _ patient.ptr hv1]
      · rw [patientsOf_setBlock_self _ c b2 _ hb2]
        rfl
      · rw [patientsOf_setBlock_ne _ c c2 _ (Ne.symm hc2), patientsOf_incStrong]
      · rw [hstrong c2]
        exact strongOf_incStrong_le h patient.ptr c2
      · rw [hstrong c2]
        exact strongOf_incStrong_ne h patient.ptr c2 hc2
      · simp only [Heap.setBlock]
        exact objs_incStrong h patient.ptr

/-- C5 at a concrete input: the nurse and the patient are two `makeShared` handles; the
first call appends the patient, the second call leaves the heap as it is. -/
theorem keepAlive_idempotent_witness :
    SharedPtr.toBool ⟨1, ⟨1, some 1⟩⟩ = true ∧
    keepAlive ⟨1, ⟨1, some 1⟩⟩ ⟨2, ⟨2, some 3⟩⟩
        (makeShared 2 7 (makeShared 1 5 ⟨[], []⟩).2).2
      = .ok ⟨[⟨5, 0⟩, ⟨7, 0⟩],
          [⟨1, 0, 1, .destroy⟩, ⟨1, 0, 1, .manager 1 [⟨1, some 0⟩, ⟨2, some 3⟩]⟩,
            ⟨1, 0, 2, .destroy⟩, ⟨2, 0, 2, .manager 2 [⟨2, some 2⟩]⟩]⟩ ∧
    keepAlive ⟨1, ⟨1, some 1⟩⟩ ⟨2, ⟨2, some 3⟩⟩
        ⟨[⟨5, 0⟩, ⟨7, 0⟩],
          [⟨1, 0, 1, .destroy⟩, ⟨1, 0, 1, .manager 1 [⟨1, some 0⟩, ⟨2, some 3⟩]⟩,
            ⟨1, 0, 2, .destroy⟩, ⟨2, 0, 2, .manager 2 [⟨2, some 2⟩]⟩]⟩
      = .ok ⟨[⟨5, 0⟩, ⟨7, 0⟩],
          [⟨1, 0, 1, .destroy⟩, ⟨1, 0, 1, .manager 1 [⟨1, some 0⟩, ⟨2, some 3⟩]⟩,
            ⟨1, 0, 2, .destroy⟩, ⟨2, 0, 2, .manager 2 [⟨2, some 2⟩]⟩]⟩ :=
  ⟨by decide, rfl,
    (keepAlive_idempotent ⟨1, ⟨1, some 1⟩⟩ ⟨2, ⟨2, some 3⟩⟩
      (makeShared 2 7 (makeShared 1 5 ⟨[], []⟩).2).2 _ (by decide) (Or.inr (by decide)) rfl).1⟩

/-! ## C6: `keepAlive` through a cast handle -/

/-- C6 (the code at the failing input): `u` is made by `makeShared` with type `1`, `c`
is `static_pointer_cast` of `u` to type `2`, and `q` is another live handle.  The
handle `c` is non-empty and shares the control block of `u`; `keepAlive` through `u`
returns normally, `keepAlive` through `c` ends in the abort branch. -/
theorem keepAlive_through_cast_aborts :
    ∃ u h1 c h2 q h3,
      makeShared 1 5 ⟨[], []⟩ = (u, h1) ∧
      static_pointer_cast 2 id u h1 = (c, h2) ∧
      makeShared 3 7 h2 = (q, h3) ∧
      c.toBool = true ∧ c.ptr.cb = u.ptr.cb ∧ c.get = u.get ∧
      (∃ h4, keepAlive u q h3 = .ok h4) ∧
      keepAlive c q h3 = .error managerNotFound ∧
      keepAlive (SharedPtr.convert 2 id u) q h3 = .error managerNotFound := by
  refine ⟨_, _, _, _, _, _, rfl, rfl, rfl, ?_⟩
  exact ⟨by decide, by decide, by decide, ⟨_, rfl⟩, rfl, rfl⟩

/-! ## C7: weak handles -/

/-- C7: a weak handle made from a strong handle leaves every strong count as it was.
Whenever the strong count of its control block is zero, `lock` gives the empty handle
(the heap is untouched) and `expired` is true.  While the strong count is nonzero,
`expired` is false and `lock` gives a handle with the same control block and the same
address as the strong handle (so it is non-null exactly when that handle was), the
strong count of that block rises by exactly one and no other count changes. -/
theorem WeakPtr_lock_spec (r : SharedPtr) (h : Heap) :
    (∀ c, (WeakPtr.ofShared r h).2.strongOf c = h.strongOf c) ∧
    ∀ h2 : Heap,
      (h2.useCount r.ptr = 0 →
        (WeakPtr.ofShared r h).1.lock h2 = (SharedPtr.empty r.ty, h2) ∧
        (WeakPtr.ofShared r h).1.expired h2 = true) ∧
      (h2.useCount r.ptr ≠ 0 →
        (WeakPtr.ofShared r h).1.expired h2 = false ∧
        ((WeakPtr.ofShared r h).1.lock h2).1 = r ∧
        (∃ c, ((WeakPtr.ofShared r h).1.lock h2).1.ptr.cb = some c) ∧
        ((WeakPtr.ofShared r h).1.lock h2).2.useCount r.ptr = h2.useCount r.ptr + 1 ∧
        ∀ c, r.ptr.cb ≠ some c →
          ((WeakPtr.ofShared r h).1.lock h2).2.strongOf c = h2.strongOf c) := by
  refine ⟨fun c => strongOf_incWeak h r.ptr c, fun h2 => ⟨fun h0 => ?_, fun hne => ?_⟩⟩
  · simp [WeakPtr.ofShared, WeakPtr.lock, WeakPtr.expired, h0]
  · have hcb : ∃ c, r.ptr.cb = some c := by
      cases hc : r.ptr.cb with
      | none => simp [Heap.useCount, hc] at hne
      | some c => exact ⟨c, rfl⟩
    have hexp : (WeakPtr.ofShared r h).1.expired h2 = false := by
      simp [WeakPtr.ofShared, WeakPtr.expired, hne]
    have hlock : (WeakPtr.ofShared r h).1.lock h2 = (r, h2.incStrong r.ptr) := by
      unfold WeakPtr.lock
      rw [hexp]
      rfl
    rw [hlock]
    exact ⟨hexp, rfl, hcb, useCount_incStrong h2 r.ptr hne,
      fun c hc => strongOf_incStrong_ne h2 r.ptr c hc⟩

/-- C7 at a concrete heap: a weak handle of a `makeShared` handle first locks (the
count goes from one to two), and after the handle is destroyed it has expired and
`lock` gives the empty handle. -/
theorem WeakPtr_lock_spec_witness :
    ((makeShared 1 5 ⟨[], []⟩).2.useCount (makeShared 1 5 ⟨[], []⟩).1.ptr ≠ 0 ∧
      ((WeakPtr.ofShared (makeShared 1 5 ⟨[], []⟩).1 (makeShared 1 5 ⟨[], []⟩).2).1.lock
        (makeShared 1 5 ⟨[], []⟩).2).2.useCount (makeShared 1 5 ⟨[], []⟩).1.ptr = 2) ∧
    (((makeShared 1 5 ⟨[], []⟩).1.destroy (makeShared 1 5 ⟨[], []⟩).2).useCount
        (makeShared 1 5 ⟨[], []⟩).1.ptr = 0 ∧
      (WeakPtr.ofShared (makeShared 1 5 ⟨[], []⟩).1 (makeShared 1 5 ⟨[], []⟩).2).1.lock
        ((makeShared 1 5 ⟨[], []⟩).1.destroy (makeShared 1 5 ⟨[], []⟩).2)
        = (SharedPtr.empty 1, (makeShared 1 5 ⟨[], []⟩).1.destroy (makeShared 1 5 ⟨[], []⟩).2)) :=
  ⟨⟨by decide,
      (((WeakPtr_lock_spec (makeShared 1 5 ⟨[], []⟩).1 (makeShared 1 5 ⟨[], []⟩).2).2
        (makeShared 1 5 ⟨[], []⟩).2).2 (by decide)).2.2.2.1⟩,
    ⟨by decide,
      (((WeakPtr_lock_spec (makeShared 1 5 ⟨[], []⟩).1 (makeShared 1 5 ⟨[], []⟩).2).2
        ((makeShared 1 5 ⟨[], []⟩).1.destroy (makeShared 1 5 ⟨[], []⟩).2)).1 (by decide)).1⟩⟩

/-! ## C8: host values thrown during a proxy call -/

/-- C8 (counterexample): host code throws a value that is not an instance of `Error`;
`Module.callJsProxyMethod` returns it and `JsProxyBase.checkError` returns normally. -/
theorem checkError_thrown_non_error_returns :
    JsProxyBase.checkError (Module.callJsProxyMethod (.throws ⟨0, false, "boom", none⟩)) ⟨none, 64, 0⟩
      = .returned := by
  decide

/-- C8 (amended): for every value thrown by host code that is an instance of `Error`,
`JsProxyBase.checkError` never ends in a normal return (it raises, or its behaviour is undefined
when the back-reference is not the address of a non-null exception slot): without the
back-reference property it raises the `JsException` wrapping that value, and with a
back-reference to the bridge's non-null exception slot it raises a native exception.  A thrown value that is not an
instance of `Error` is returned like a result. -/
theorem checkError_thrown (v : HostValue) (st : Bridge) :
    (v.isError = true →
      JsProxyBase.checkError (Module.callJsProxyMethod (.throws v)) st ≠ .returned ∧
      (v.cppExceptionPtr = none →
        JsProxyBase.checkError (Module.callJsProxyMethod (.throws v)) st = .raised (.js v)) ∧
      (v.cppExceptionPtr = some st.exptrAddr → st.exptr ≠ none →
        ∃ e, JsProxyBase.checkError (Module.callJsProxyMethod (.throws v)) st = .raised e)) ∧
    (v.isError = false → JsProxyBase.checkError (Module.callJsProxyMethod (.throws v)) st = .returned) := by
  refine ⟨fun he => ⟨?_, fun hp => ?_, fun hp hs => ?_⟩, fun he => ?_⟩
  · simp only [Module.callJsProxyMethod, JsProxyBase.checkError, he, if_true]
    cases v.cppExceptionPtr with
    | none => simp
    | some a =>
      simp only
      split
      · cases st.exptr <;> simp
      · simp
  · simp [Module.callJsProxyMethod, JsProxyBase.checkError, he, hp]
  · cases hx : st.exptr with
    | none => exact absurd hx hs
    | some e => exact ⟨e, by simp [Module.callJsProxyMethod, JsProxyBase.checkError, he, hp, hx]⟩
  · simp [Module.callJsProxyMethod, JsProxyBase.checkError, he]

/-- C8 (amended) at concrete inputs: a thrown `Error` without back-reference, and a
thrown `Error` that refers to the slot holding a converted exception. -/
theorem checkError_thrown_witness :
    JsProxyBase.checkError (Module.callJsProxyMethod (.throws ⟨3, true, "host failure", none⟩)) ⟨none, 64, 4⟩
      = .raised (.js ⟨3, true, "host failure", none⟩) ∧
    (∃ e, JsProxyBase.checkError (Module.callJsProxyMethod (.throws ⟨3, true, "C++: first", some 64⟩))
      ⟨some (.other "std::runtime_error" "first"), 64, 4⟩ = .raised e) :=
  ⟨((checkError_thrown ⟨3, true, "host failure", none⟩ ⟨none, 64, 4⟩).1 rfl).2.1 rfl,
    ((checkError_thrown ⟨3, true, "C++: first", some 64⟩
      ⟨some (.other "std::runtime_error" "first"), 64, 4⟩).1 rfl).2.2 rfl (by decide)⟩

/-! ## Releases without cascade -/

theorem ptrRef_le_one (p : StdPtr) (c : Nat) : ptrRef p c ≤ 1 := by
  unfold ptrRef
  split <;> omega

/-- C10: `return_value_policy::Copy` on a function that returns a reference, or a raw
pointer, to a live object holding `v` returns a handle (both forms give the same
result), and that handle is non-empty and wraps a fresh allocation: its address was
not an allocation before and differs from the source address, the new object holds
`v`, every object readable before (the source among them) still holds its value,
every control block that existed is unchanged (so are all counts), the handle is the
only owner of its block, and a later write to the source or to the handle's object
changes that object only. -/
theorem Copy_fresh_allocation (ty : TypeId) (a : Nat) (v : Int) (h : Heap)
    (hl : h.load a = some v) :
    (return_value_policy.Copy ty (.lvalueRef a) h).isSome = true ∧
    return_value_policy.Copy ty (.rawPointer a) h
      = return_value_policy.Copy ty (.lvalueRef a) h ∧
    ∀ (d : SharedPtr) (h1 : Heap),
      return_value_policy.Copy ty (.lvalueRef a) h = some (d, h1) →
      d.toBool = true ∧ d.get ≠ a ∧ h.load d.get = none ∧
      h1.load d.get = some v ∧
      (∀ (a2 : Nat) (v2 : Int), h.load a2 = some v2 → h1.load a2 = some v2) ∧
      (∀ (c : Nat) (b : Block), h.blocks[c]? = some b → h1.blocks[c]? = some b) ∧
      h1.useCount d.ptr = 1 ∧
      ∀ w : Int, (h1.write a w).load d.get = some v ∧ (h1.write a w).load a = some w ∧
        (h1.write d.get w).load a = some v ∧ (h1.write d.get w).load d.get = some w := by
  obtain ⟨ha0, hale⟩ := load_lt h a v hl
  have hale2 : (a : Nat) ≤ h.objs.length := hale
  have hne : h.objs.length + 1 ≠ a := fun e => by
    rw [← e] at hale2
    exact Nat.not_succ_le_self _ hale2
  have hkeep : ∀ (a2 : Nat) (v2 : Int), h.load a2 = some v2 →
      Heap.load ⟨h.objs ++ [⟨v, 0⟩],
        h.blocks ++ [⟨1, 0, h.objs.length + 1, .destroy⟩,
          ⟨1, 0, h.objs.length + 1,
            .manager ty [⟨h.objs.length + 1, some h.blocks.length⟩]⟩]⟩ a2 = some v2 :=
    fun a2 v2 h2 => load_append h.objs h.blocks _ _ a2 v2 h2
  have hnew : Heap.load ⟨h.objs ++ [⟨v, 0⟩],
        h.blocks ++ [⟨1, 0, h.objs.length + 1, .destroy⟩,
          ⟨1, 0, h.objs.length + 1,
            .manager ty [⟨h.objs.length + 1, some h.blocks.length⟩]⟩]⟩
        (h.objs.length + 1) = some v := by
    simp [Heap.load, Heap.freesOf, Heap.valueOf]
  have hcopy : return_value_policy.Copy ty (.lvalueRef a) h = some (makeShared ty v h) := by
    simp only [return_value_policy.Copy, valuePolicy, CopyReference.apply, Pointer.addr, hl]
  have hcopy2 : return_value_policy.Copy ty (.rawPointer a) h = some (makeShared ty v h) := by
    simp only [return_value_policy.Copy, valuePolicy, CopyReference.apply, Pointer.addr, hl,
      Pointer.destroy]
  refine ⟨by rw [hcopy]; rfl, by rw [hcopy, hcopy2], fun d h1 he => ?_⟩
  rw [hcopy, makeShared_eq] at he
  simp only [Option.some.injEq, Prod.mk.injEq] at he
  obtain ⟨hd, hh⟩ := he
  subst hd hh
  refine ⟨?_, hne, ?_, hnew, hkeep, ?_, ?_, fun w => ⟨?_, ?_, ?_, ?_⟩⟩
  · simp [SharedPtr.toBool]
  · simp [Heap.load, Heap.freesOf, Heap.valueOf, SharedPtr.get]
  · intro c b hb
    have hlt : c < h.blocks.length := (List.getElem?_eq_some.mp hb).1
    simp only
    rw [List.getElem?_append_left hlt, hb]
  · have hlen : h.blocks.length ≤ h.blocks.length + 1 := Nat.le_succ _
    simp [Heap.useCount, Heap.strongOf, List.getElem?_append_right hlen]
  · exact (load_write_ne _ a _ w (Ne.symm hne)).trans hnew
  · exact load_write_self _ a v w (hkeep a v hl)
  · exact (load_write_ne _ _ a w hne).trans (hkeep a v hl)
  · exact load_write_self _ _ v w hnew

/-- C10 at a concrete input: the source is the object of a `makeShared` handle holding
`42`; the copy lives at address `2`, and after the source is overwritten with `9` the
copy still holds `42`. -/
theorem Copy_fresh_allocation_witness :
    (makeShared 1 42 ⟨[], []⟩).2.load 1 = some 42 ∧
    return_value_policy.Copy 1 (.lvalueRef 1) (makeShared 1 42 ⟨[], []⟩).2
      = some (makeShared 1 42 (makeShared 1 42 ⟨[], []⟩).2) ∧
    (makeShared 1 42 (makeShared 1 42 ⟨[], []⟩).2).1.get = 2 ∧
    (Heap.write (makeShared 1 42 (makeShared 1 42 ⟨[], []⟩).2).2 1 9).load 2 = some 42 :=
  ⟨by decide, rfl, rfl,
    (((Copy_fresh_allocation 1 1 42 (makeShared 1 42 ⟨[], []⟩).2 (by decide)).2.2
      (makeShared 1 42 (makeShared 1 42 ⟨[], []⟩).2).1
      (makeShared 1 42 (makeShared 1 42 ⟨[], []⟩).2).2 rfl).2.2.2.2.2.2.2 9).1⟩

/-! ## C11: the `Automatic` policy -/

/-- On a function returning an lvalue reference, `Automatic` is `Copy`. -/
theorem Automatic_lvalueRef (ty : TypeId) (a : Nat) (h : Heap) :
    return_value_policy.Automatic ty (.lvalueRef a) h
      = return_value_policy.Copy ty (.lvalueRef a) h := rfl

/-- On a function returning a raw pointer or a `std::shared_ptr` by value, `Automatic`
is `Take`. -/
theorem Automatic_pointer (ty : TypeId) (a : Nat) (p : StdPtr) (h : Heap) :
    return_value_policy.Automatic ty (.rawPointer a) h
      = return_value_policy.Take ty (.rawPointer a) h ∧
    return_value_policy.Automatic ty (.stdShared p) h
      = return_value_policy.Take ty (.stdShared p) h :=
  ⟨rfl, rfl⟩

/-- C12: for every host value that is an instance of `Error` and has no
`_djinni_cpp_exception_ptr` property, `checkError` raises the `JsException` whose
cause is that value, and `djinni_native_exception_to_js` applied to that exception
(whatever the current exception is) returns the value itself, identity, message and
properties included, and leaves the bridge as it was: no new `Error` is created. -/
theorem host_error_round_trip (v : HostValue) (st : Bridge)
    (current : Option NativeException) (he : v.isError = true)
    (hp : v.cppExceptionPtr = none) :
    JsProxyBase.checkError v st = .raised (.js v) ∧
    djinni_native_exception_to_js current (.js v) st = (v, st) := by
  refine ⟨?_, rfl⟩
  simp [JsProxyBase.checkError, he, hp]

/-- C12 at a concrete input: a host `Error` made by host code, with a bridge that has
already converted a native exception. -/
theorem host_error_round_trip_witness :
    JsProxyBase.checkError ⟨3, true, "host failure", none⟩
        ⟨some (.other "std::runtime_error" "first"), 64, 4⟩
      = .raised (.js ⟨3, true, "host failure", none⟩) ∧
    djinni_native_exception_to_js (some (.js ⟨3, true, "host failure", none⟩))
        (.js ⟨3, true, "host failure", none⟩)
        ⟨some (.other "std::runtime_error" "first"), 64, 4⟩
      = (⟨3, true, "host failure", none⟩,
          ⟨some (.other "std::runtime_error" "first"), 64, 4⟩) :=
  host_error_round_trip ⟨3, true, "host failure", none⟩
    ⟨some (.other "std::runtime_error" "first"), 64, 4⟩
    (some (.js ⟨3, true, "host failure", none⟩)) rfl rfl

/-! ## C13: to `std::shared_ptr` and back -/

/-- A handle whose control block carries the `Manager` of its own type: converting it
to `std::shared_ptr` and back gives the same handle, on the same control block, with
one more strong reference. -/
theorem ofStd_toStd_of_manager (p : SharedPtr) (h : Heap) (hb : p.toBool = true)
    (hm : getManager p.ty p.ptr h ≠ none) :
    SharedPtr.ofStd p.ty (p.toStd h).1 (p.toStd h).2 = (p, h.incStrong p.ptr) := by
  have h0 : ¬ p.ptr.addr = 0 := by
    simpa [SharedPtr.toBool] using hb
  simp only [SharedPtr.toStd, SharedPtr.ofStd, h0, if_false, getManager_incStrong]
  cases hg : getManager p.ty p.ptr h with
  | none => exact absurd hg hm
  | some cps => rfl

/-- C13 (the code at the failing input): `u` is made by `makeShared` with type `1` and
`c` is `static_pointer_cast` of `u` to type `2`, a non-empty handle on control block
`1`.  Converting `c` to `std::shared_ptr` and back gives `n`, with the address of `c`
but on a new control block `2`, whose `Manager` holds the pointer to block `1` as
patient.  A patient `q` attached through `n` is stored in block `2` only; after `n`
and `q` are destroyed the patient has been released although `c` is alive.  The same
conversion of `u` gives `u` back on its own block, and a null `std::shared_ptr` gives
the empty handle. -/
theorem round_trip_of_cast_handle_nests_manager :
    ∃ u h1 c h2 r h3 n h4 q h5 h6,
      makeShared 1 5 ⟨[], []⟩ = (u, h1) ∧ static_pointer_cast 2 id u h1 = (c, h2) ∧
      c.toStd h2 = (r, h3) ∧ SharedPtr.ofStd 2 r h3 = (n, h4) ∧
      makeShared 3 7 h4 = (q, h5) ∧ keepAlive n q h5 = .ok h6 ∧
      c.toBool = true ∧ n.get = c.get ∧
      c.ptr.cb = some 1 ∧ n.ptr.cb = some 2 ∧
      h4.blocks.length = h3.blocks.length + 1 ∧
      h4.blocks[2]? = some ⟨1, 0, 1, .manager 2 [⟨1, some 1⟩]⟩ ∧
      h6.patientsOf 1 = h5.patientsOf 1 ∧
      h6.patientsOf 2 = h5.patientsOf 2 ++ [q.ptr] ∧
      (q.destroy (n.destroy h6)).freesOf q.get = 1 ∧
      (q.destroy (n.destroy h6)).useCount c.ptr = 2 ∧
      SharedPtr.ofStd 1 (u.toStd h2).1 (u.toStd h2).2 = (u, h2.incStrong u.ptr) ∧
      SharedPtr.ofStd 2 StdPtr.null h2 = (SharedPtr.empty 2, h2) := by
  refine ⟨_, _, _, _, _, _, _, _, _, _, _, rfl, rfl, rfl, rfl, rfl, rfl, ?_⟩
  repeat' apply And.intro
  all_goals decide

end Djinni
